import Mathlib

/-!
Shallow embedding of image_size_compressor.js and verification of its
natural-language specification.

The repository exposes one entry point, compressImageToTarget, built from
three pieces:
  drawImageToCanvas  - computes the rendered canvas dimensions (a downscale
                       ratio applied first, then maxWidth/maxHeight clamps);
  binarySearch       - a quality binary search over encode attempts for a
                       fixed canvas;
  attemptCompression - the downscale retry loop around the quality search.

The host collaborators (decoding a file, rasterising pixels, the lossy
encoder) are opaque; they are modelled by an encoder parameter giving the
encoded byte size as a function of the canvas and the quality scalar.
Numbers are modelled by ℚ (the concrete literals of the source, 0.1, 0.95,
0.9, 0.25, 5, are exact rationals there).
-/

namespace ImageCompressor

/-- JavaScript Math.round on rationals: round half toward positive infinity,
Math.round(x) = floor(x + 0.5). -/
def jsRound (x : ℚ) : ℤ := ⌊x + 1/2⌋

/-- JavaScript Math.abs on rationals. -/
def jsAbs (x : ℚ) : ℚ := if x < 0 then -x else x

/-- The rendered canvas, identified by its pixel dimensions
(canvas.width / canvas.height in the source). -/
structure Canvas where
  width : ℤ
  height : ℤ
deriving DecidableEq

/-- Dimension computation of drawImageToCanvas (src/image_size_compressor.js
lines 61-86): starting from the source image dimensions, apply the downscale
ratio when it is below 1, then clamp to maxWidth (height scaled by
maxWidth/width, then width set to maxWidth), then clamp to maxHeight
symmetrically.  `mw ≠ 0 ∧ w > mw` models the JavaScript truthiness test
`maxWidth && width > maxWidth` with null mapped to `none`. -/
def drawImageToCanvas (imgW imgH : ℤ) (maxW maxH : Option ℤ) (ratio : ℚ) : Canvas :=
  let p1 : ℤ × ℤ :=
    if ratio < 1 then (jsRound ((imgW : ℚ) * ratio), jsRound ((imgH : ℚ) * ratio))
    else (imgW, imgH)
  let p2 : ℤ × ℤ :=
    match maxW with
    | some mw =>
      if mw ≠ 0 ∧ p1.1 > mw then (mw, jsRound ((p1.2 : ℚ) * ((mw : ℚ) / (p1.1 : ℚ))))
      else p1
    | none => p1
  let p3 : ℤ × ℤ :=
    match maxH with
    | some mh =>
      if mh ≠ 0 ∧ p2.2 > mh then (jsRound ((p2.1 : ℚ) * ((mh : ℚ) / (p2.2 : ℚ))), mh)
      else p2
    | none => p2
  ⟨p3.1, p3.2⟩

/-- An encoded blob: the quality it was encoded at together with its byte
size.  canvas.toBlob for a fixed canvas is modelled by a size function
`enc : ℚ → ℚ` from quality to byte count, so the blob produced at quality q
is `⟨q, enc q⟩`. -/
structure Blob where
  quality : ℚ
  size : ℚ
deriving DecidableEq

/-- The blob produced by one encode call at quality `q`. -/
def encodeBlob (enc : ℚ → ℚ) (q : ℚ) : Blob := ⟨q, enc q⟩

/-- The mutable state of the quality binary search (the closure variables
low / high / currentQuality / iteration / bestBlob of the source). -/
structure SearchState where
  low : ℚ
  high : ℚ
  currentQuality : ℚ
  iteration : ℕ
  bestBlob : Option Blob
deriving DecidableEq

/-- The state the search starts from: low = minQuality,
high = currentQuality = maxQuality, iteration = 0, no bestBlob. -/
def initState (minQ maxQ : ℚ) : SearchState :=
  ⟨minQ, maxQ, maxQ, 0, none⟩

/-- One pass of the body of binarySearch when it continues: the blob is
encoded at currentQuality; a conforming size (sizeKB ≤ target) records the
blob as bestBlob and raises low, an over-target size lowers high; iteration
increments and currentQuality becomes the midpoint of the updated bounds. -/
def searchStep (enc : ℚ → ℚ) (target : ℚ) (s : SearchState) : SearchState :=
  if enc s.currentQuality / 1024 ≤ target then
    { low := s.currentQuality
      high := s.high
      currentQuality := (s.currentQuality + s.high) / 2
      iteration := s.iteration + 1
      bestBlob := some (encodeBlob enc s.currentQuality) }
  else
    { low := s.low
      high := s.currentQuality
      currentQuality := (s.low + s.currentQuality) / 2
      iteration := s.iteration + 1
      bestBlob := s.bestBlob }

/-- The recursion of binarySearch (src/image_size_compressor.js lines
152-175), with an explicit recursion budget.  Each call encodes at
currentQuality, updates the bounds and bestBlob, increments iteration and
stops (returning `bestBlob || blob`) when iteration ≥ maxIterations or the
size is within 5 KB of the target; otherwise it recurses on the stepped
state.  The budget only bounds the recursion depth: the loop increments
iteration every pass and stops as soon as iteration ≥ maxIterations, so a
budget of maxIterations is never exhausted (when it is zero the stop test
is already true, which is what the zero branch returns). -/
def binarySearchGo (enc : ℚ → ℚ) (target : ℚ) (maxIter : ℕ) : ℕ → SearchState → Blob
  | 0, s =>
    let blob := encodeBlob enc s.currentQuality
    (if blob.size / 1024 ≤ target then some blob else s.bestBlob).getD blob
  | fuel + 1, s =>
    let blob := encodeBlob enc s.currentQuality
    let best' := if blob.size / 1024 ≤ target then some blob else s.bestBlob
    if s.iteration + 1 ≥ maxIter ∨ jsAbs (blob.size / 1024 - target) ≤ 5 then best'.getD blob
    else binarySearchGo enc target maxIter fuel (searchStep enc target s)

/-- The quality binary search as invoked by attemptCompression: starts at
`initState` and runs `binarySearchGo` with budget maxIterations. -/
def binarySearch (enc : ℚ → ℚ) (target : ℚ) (maxIter : ℕ) (minQ maxQ : ℚ) : Blob :=
  binarySearchGo enc target maxIter maxIter (initState minQ maxQ)

/-- The qualities the search encodes at, in order, mirroring the recursion
of `binarySearchGo`. -/
def searchTrace (enc : ℚ → ℚ) (target : ℚ) (maxIter : ℕ) : ℕ → SearchState → List ℚ
  | 0, s => [s.currentQuality]
  | fuel + 1, s =>
    if s.iteration + 1 ≥ maxIter ∨ jsAbs (enc s.currentQuality / 1024 - target) ≤ 5 then
      [s.currentQuality]
    else s.currentQuality :: searchTrace enc target maxIter fuel (searchStep enc target s)

/-- The qualities tried by one full run of `binarySearch`. -/
def triedQualities (enc : ℚ → ℚ) (target : ℚ) (maxIter : ℕ) (minQ maxQ : ℚ) : List ℚ :=
  searchTrace enc target maxIter maxIter (initState minQ maxQ)

/-- The downscale retry loop attemptCompression (src/image_size_compressor.js
lines 178-188), with an explicit retry budget (`none` = budget exhausted; the
source recursion has no syntactic bound, and the theorems below show a budget
of 15 always suffices from the starting ratio 1).  Each attempt renders the
canvas at the current downscale ratio, runs the quality search on it, and —
when the resulting size exceeds target + 5 KB, scaling down is allowed and
the ratio is still above the 0.25 floor — multiplies the ratio by the
scale step 0.9 and retries; otherwise it returns the blob. -/
def attemptCompressionGo (enc : Canvas → ℚ → ℚ) (imgW imgH : ℤ) (maxW maxH : Option ℤ)
    (target : ℚ) (maxIter : ℕ) (minQ maxQ : ℚ) (allow : Bool) :
    ℕ → ℚ → Option Blob
  | 0, _ => none
  | fuel + 1, ratio =>
    let blobResult :=
      binarySearch (enc (drawImageToCanvas imgW imgH maxW maxH ratio)) target maxIter minQ maxQ
    if blobResult.size / 1024 > target + 5 ∧ allow = true ∧ ratio > 1/4 then
      attemptCompressionGo enc imgW imgH maxW maxH target maxIter minQ maxQ allow fuel
        (ratio * (9/10))
    else some blobResult

/-- The downscale ratios at which attempts are rendered, in order, mirroring
the recursion of `attemptCompressionGo`. -/
def ratiosUsed (enc : Canvas → ℚ → ℚ) (imgW imgH : ℤ) (maxW maxH : Option ℤ)
    (target : ℚ) (maxIter : ℕ) (minQ maxQ : ℚ) (allow : Bool) :
    ℕ → ℚ → List ℚ
  | 0, _ => []
  | fuel + 1, ratio =>
    let blobResult :=
      binarySearch (enc (drawImageToCanvas imgW imgH maxW maxH ratio)) target maxIter minQ maxQ
    if blobResult.size / 1024 > target + 5 ∧ allow = true ∧ ratio > 1/4 then
      ratio :: ratiosUsed enc imgW imgH maxW maxH target maxIter minQ maxQ allow fuel
        (ratio * (9/10))
    else [ratio]

/-- The options object accepted by compressImageToTarget; `none` models an
absent (undefined) property. -/
structure Options where
  targetSizeKB : Option ℚ
  mimeType : Option String
  maxWidth : Option ℤ
  maxHeight : Option ℤ
  maxIterations : Option ℕ
  minQuality : Option ℚ
  maxQuality : Option ℚ
  allowScaleDown : Option Bool
deriving DecidableEq

/-- JavaScript `v || d` for a numeric rational option: absent or 0 (the falsy
number values representable in ℚ) falls back to the default. -/
def jsOrQ (v : Option ℚ) (d : ℚ) : ℚ :=
  match v with
  | none => d
  | some x => if x = 0 then d else x

/-- JavaScript `v || d` for a counting option. -/
def jsOrN (v : Option ℕ) (d : ℕ) : ℕ :=
  match v with
  | none => d
  | some x => if x = 0 then d else x

/-- JavaScript `v || null` for a dimension cap: absent or 0 becomes null. -/
def jsOrNullZ (v : Option ℤ) : Option ℤ :=
  match v with
  | none => none
  | some x => if x = 0 then none else some x

/-- JavaScript `v || d` for the mime type string: absent or empty falls back
to the default. -/
def jsOrStr (v : Option String) (d : String) : String :=
  match v with
  | none => d
  | some x => if x = "" then d else x

/-- JavaScript `options.allowScaleDown !== false` (default true). -/
def jsAllow (v : Option Bool) : Bool :=
  match v with
  | some false => false
  | _ => true

/-- The failure raised when the required targetSizeKB option is falsy
(the source rejects with Error, the one InvalidArgument-style failure). -/
inductive CompressError
  | invalidArgument
deriving DecidableEq

/-- The entry point compressImageToTarget (src/image_size_compressor.js lines
118-194).  The validation `if (!targetSizeKB)` rejects a missing or zero
target before the image is decoded; otherwise the defaults are filled in and
the downscale retry loop starts at ratio 1.  The decoded image is represented
by its dimensions, the encoder family by a size function of the mime type,
the canvas and the quality; `fuel` bounds the retry recursion as in
`attemptCompressionGo`. -/
def compressImageToTarget (encFam : String → Canvas → ℚ → ℚ) (imgW imgH : ℤ)
    (opts : Options) (fuel : ℕ) : Except CompressError (Option Blob) :=
  match opts.targetSizeKB with
  | none => .error .invalidArgument
  | some t =>
    if t = 0 then .error .invalidArgument
    else
      .ok (attemptCompressionGo (encFam (jsOrStr opts.mimeType "image/jpeg")) imgW imgH
        (jsOrNullZ opts.maxWidth) (jsOrNullZ opts.maxHeight) t
        (jsOrN opts.maxIterations 10) (jsOrQ opts.minQuality (1/10))
        (jsOrQ opts.maxQuality (19/20)) (jsAllow opts.allowScaleDown) fuel 1)

/-- The quality search loop as the specification words it (§4.1 of the spec,
quoted by the claim): sizes and the target are byte counts and the stop
tolerance is an explicit absolute byte count `tolBytes`; each iteration
encodes at currentQuality, a size ≤ target overwrites bestBlob and raises
low to currentQuality, otherwise high drops to currentQuality; the loop
stops exactly when iteration ≥ maxIterations or |size − target| ≤ tolBytes,
returning bestBlob if ever set and otherwise the last encoded blob; when it
does not stop, the next currentQuality is (low + high) / 2. -/
def specSearchGo (enc : ℚ → ℚ) (targetBytes tolBytes : ℚ) (maxIter : ℕ) :
    ℕ → SearchState → Blob
  | 0, s =>
    let blob := encodeBlob enc s.currentQuality
    (if blob.size ≤ targetBytes then some blob else s.bestBlob).getD blob
  | fuel + 1, s =>
    let blob := encodeBlob enc s.currentQuality
    let best' := if blob.size ≤ targetBytes then some blob else s.bestBlob
    if s.iteration + 1 ≥ maxIter ∨ |blob.size - targetBytes| ≤ tolBytes then best'.getD blob
    else
      specSearchGo enc targetBytes tolBytes maxIter fuel
        (if blob.size ≤ targetBytes then
          ⟨s.currentQuality, s.high, (s.currentQuality + s.high) / 2, s.iteration + 1, some blob⟩
         else
          ⟨s.low, s.currentQuality, (s.low + s.currentQuality) / 2, s.iteration + 1, s.bestBlob⟩)

/-- The specification-worded quality search started from
low = minQuality, high = currentQuality = maxQuality. -/
def specSearch (enc : ℚ → ℚ) (targetBytes tolBytes : ℚ) (maxIter : ℕ) (minQ maxQ : ℚ) : Blob :=
  specSearchGo enc targetBytes tolBytes maxIter maxIter ⟨minQ, maxQ, maxQ, 0, none⟩

/-- First stage of the render geometry as the specification words it:
apply the downscale ratio to the source dimensions. -/
def applyRatioSpec (ratio : ℚ) (p : ℤ × ℤ) : ℤ × ℤ :=
  if ratio < 1 then (jsRound ((p.1 : ℚ) * ratio), jsRound ((p.2 : ℚ) * ratio)) else p

/-- Second stage: clamp the width to maxWidth, scaling the height to
preserve the aspect ratio. -/
def clampWidthSpec (maxW : Option ℤ) (p : ℤ × ℤ) : ℤ × ℤ :=
  match maxW with
  | some mw =>
    if mw ≠ 0 ∧ p.1 > mw then (mw, jsRound ((p.2 : ℚ) * ((mw : ℚ) / (p.1 : ℚ)))) else p
  | none => p

/-- Third stage: clamp the height to maxHeight, scaling the width to
preserve the aspect ratio. -/
def clampHeightSpec (maxH : Option ℤ) (p : ℤ × ℤ) : ℤ × ℤ :=
  match maxH with
  | some mh =>
    if mh ≠ 0 ∧ p.2 > mh then (jsRound ((p.1 : ℚ) * ((mh : ℚ) / (p.2 : ℚ))), mh) else p
  | none => p

/-- The claimed search-state invariant: 0 ≤ low ≤ currentQuality ≤ high ≤ 1. -/
def SearchInv (s : SearchState) : Prop :=
  0 ≤ s.low ∧ s.low ≤ s.currentQuality ∧ s.currentQuality ≤ s.high ∧ s.high ≤ 1

/-- The synthetic test encoder of the specification scenario: the blob at
quality q has size 1000·q KB, i.e. 1000·q·1024 bytes. -/
def encLinear : ℚ → ℚ := fun q => 1000 * q * 1024

theorem jsAbs_eq_abs (x : ℚ) : jsAbs x = |x| := by
  unfold jsAbs
  rcases lt_or_le x 0 with h | h
  · rw [if_pos h, abs_of_neg h]
  · rw [if_neg (not_lt.mpr h), abs_of_nonneg h]

/-- C1 (amended): for every call to compressImageToTarget with targetSizeKB
missing or equal to 0 (the falsy values of the source's `!targetSizeKB`
guard), the call fails with the InvalidArgument-style rejection, and no
decode, render, or encode call is made before the failure: the result is the
rejection for every encoder family, every decoded image and every retry
budget, so it depends on none of them.  (Negative targets, contrary to the
original claim, pass the guard; see the counterexample.) -/
theorem targetValidation_falsy_rejects
    (encFam encFam' : String → Canvas → ℚ → ℚ) (imgW imgH imgW' imgH' : ℤ)
    (opts : Options) (fuel fuel' : ℕ)
    (h : opts.targetSizeKB = none ∨ opts.targetSizeKB = some 0) :
    compressImageToTarget encFam imgW imgH opts fuel = .error .invalidArgument ∧
      compressImageToTarget encFam imgW imgH opts fuel
        = compressImageToTarget encFam' imgW' imgH' opts fuel' := by
  rcases h with h | h <;> simp [compressImageToTarget, h]

/-- C1 witness: the zero-target rejection at a concrete call. -/
theorem targetValidation_falsy_rejects_instance :
    compressImageToTarget (fun _ _ _ => 0) 100 100
      ⟨some 0, none, none, none, none, none, none, none⟩ 1 = .error .invalidArgument :=
  (targetValidation_falsy_rejects (fun _ _ _ => 0) (fun _ _ _ => 0) 100 100 100 100
    ⟨some 0, none, none, none, none, none, none, none⟩ 1 1 (Or.inr rfl)).1

/-- C1 counterexample: a negative targetSizeKB is truthy in JavaScript, so
the guard `if (!targetSizeKB)` does not fire and the call proceeds to
compression instead of failing with InvalidArgument. -/
theorem targetValidation_negative_not_rejected :
    compressImageToTarget (fun _ _ _ => 0) 100 100
      ⟨some (-5), none, none, none, none, none, none, none⟩ 1
      ≠ .error .invalidArgument := by
  norm_num [compressImageToTarget, attemptCompressionGo, binarySearch, binarySearchGo,
    searchStep, encodeBlob, initState, jsAbs, jsOrQ, jsOrN, jsOrNullZ, jsOrStr, jsAllow,
    drawImageToCanvas, jsRound]
  intro h
  exact Except.noConfusion h

/-- C9 (amended): supplying a falsy value for the numeric options is
equivalent to omitting them: minQuality = 0 behaves as absent (the search
floor becomes the default 0.1), maxIterations = 0 behaves as absent (10),
and maxWidth = 0 / maxHeight = 0 behave as no dimension cap.  (The boolean
option allowScaleDown is the exception — its falsy value false differs from
omission; see the counterexample.) -/
theorem falsyOptions_equiv_omitted (encFam : String → Canvas → ℚ → ℚ)
    (imgW imgH : ℤ) (fuel : ℕ) (opts : Options) :
    compressImageToTarget encFam imgW imgH { opts with minQuality := some 0 } fuel
        = compressImageToTarget encFam imgW imgH { opts with minQuality := none } fuel ∧
      compressImageToTarget encFam imgW imgH { opts with maxIterations := some 0 } fuel
        = compressImageToTarget encFam imgW imgH { opts with maxIterations := none } fuel ∧
      compressImageToTarget encFam imgW imgH { opts with maxWidth := some 0 } fuel
        = compressImageToTarget encFam imgW imgH { opts with maxWidth := none } fuel ∧
      compressImageToTarget encFam imgW imgH { opts with maxHeight := some 0 } fuel
        = compressImageToTarget encFam imgW imgH { opts with maxHeight := none } fuel ∧
      jsOrQ (some 0) (1/10) = 1/10 ∧ jsOrN (some 0) 10 = 10 ∧ jsOrNullZ (some 0) = none := by
  refine ⟨?_, ?_, ?_, ?_, by simp [jsOrQ], by simp [jsOrN], by simp [jsOrNullZ]⟩ <;>
    cases htk : opts.targetSizeKB <;>
      simp [compressImageToTarget, jsOrQ, jsOrN, jsOrNullZ, htk]

/-- C9 counterexample: allowScaleDown is an option whose falsy value false is
not equivalent to omitting it — supplied false disables the downscale retry
while omission enables it, and on a shrinking-sensitive encoder the results
differ. -/
theorem falsyAllowScaleDown_differs :
    compressImageToTarget (fun _ c _ => (c.width : ℚ) * 1024) 100 100
      ⟨some 1, none, none, none, some 1, none, none, some false⟩ 15
      ≠ compressImageToTarget (fun _ c _ => (c.width : ℚ) * 1024) 100 100
        ⟨some 1, none, none, none, some 1, none, none, none⟩ 15 := by
  norm_num [compressImageToTarget, attemptCompressionGo, binarySearch, binarySearchGo,
    searchStep, encodeBlob, initState, jsAbs, jsOrQ, jsOrN, jsOrNullZ, jsOrStr, jsAllow,
    drawImageToCanvas, jsRound]

/-- C7: with the synthetic encoder size(q) = 1000·q KB, target 300 KB, bounds
[0.1, 0.95], maxIterations 10 and tolerance 5 KB, the quality search stops
within 10 iterations (it encodes 7 times) and returns a blob whose size,
9575/32 = 299.21875 KB, lies in [295, 305] KB, at quality 383/1280 ≈ 0.3. -/
theorem syntheticLinear_converges :
    (binarySearch encLinear 300 10 (1/10) (19/20)).quality = 383/1280 ∧
      (binarySearch encLinear 300 10 (1/10) (19/20)).size / 1024 = 9575/32 ∧
      295 ≤ (binarySearch encLinear 300 10 (1/10) (19/20)).size / 1024 ∧
      (binarySearch encLinear 300 10 (1/10) (19/20)).size / 1024 ≤ 305 ∧
      (triedQualities encLinear 300 10 (1/10) (19/20)).length ≤ 10 := by
  norm_num [binarySearch, binarySearchGo, triedQualities, searchTrace, searchStep,
    encodeBlob, initState, jsAbs, encLinear]

theorem div1024_le_iff (x t : ℚ) : x / 1024 ≤ t ↔ x ≤ t * 1024 := by
  rw [div_le_iff₀ (by norm_num : (0:ℚ) < 1024)]

theorem jsAbs_div1024_le_iff (x t : ℚ) :
    jsAbs (x / 1024 - t) ≤ 5 ↔ |x - t * 1024| ≤ 5120 := by
  rw [jsAbs_eq_abs, show x / 1024 - t = (x - t * 1024) / 1024 by ring, abs_div,
    show |(1024:ℚ)| = 1024 by norm_num, div_le_iff₀ (by norm_num : (0:ℚ) < 1024)]
  norm_num

theorem binarySearchGo_eq_spec (enc : ℚ → ℚ) (t : ℚ) (maxIter : ℕ) :
    ∀ fuel s, binarySearchGo enc t maxIter fuel s
      = specSearchGo enc (t * 1024) 5120 maxIter fuel s := by
  intro fuel
  induction fuel with
  | zero =>
    intro s
    have h1 := div1024_le_iff (enc s.currentQuality) t
    simp only [binarySearchGo, specSearchGo, encodeBlob, h1]
  | succ n ih =>
    intro s
    have h1 := div1024_le_iff (enc s.currentQuality) t
    have h2 := jsAbs_div1024_le_iff (enc s.currentQuality) t
    simp only [binarySearchGo, specSearchGo, searchStep, encodeBlob, h1, h2, ih]

/-- C2: the quality binary search of the source coincides, on every fixed
surface, with the loop as the specification words it: each iteration encodes
at currentQuality; a size ≤ target overwrites bestBlob and raises low to
currentQuality, otherwise high drops to currentQuality; the search stops
exactly when iteration ≥ maxIterations or |size − target| ≤ 5 KiB (5120
bytes), returning bestBlob if ever set and otherwise the last encoded blob;
when it does not stop the next currentQuality is (low + high) / 2.  The
source compares sizes in KB against targetSizeKB with tolerance 5; the
specification loop compares byte counts against targetSizeKB·1024 with
toleranceBytes = 5120. -/
theorem binarySearch_matches_spec (enc : ℚ → ℚ) (targetKB : ℚ) (maxIter : ℕ)
    (minQ maxQ : ℚ) :
    binarySearch enc targetKB maxIter minQ maxQ
      = specSearch enc (targetKB * 1024) 5120 maxIter minQ maxQ := by
  unfold binarySearch specSearch
  exact binarySearchGo_eq_spec enc targetKB maxIter maxIter (initState minQ maxQ)

/-- C4: given 0 ≤ minQuality < maxQuality ≤ 1, the search starts at
low = minQuality, high = currentQuality = maxQuality, and every state the
quality search can reach (any number of `searchStep` updates from the start
state) satisfies 0 ≤ low ≤ currentQuality ≤ high ≤ 1. -/
theorem searchInv_holds (enc : ℚ → ℚ) (target minQ maxQ : ℚ)
    (h0 : 0 ≤ minQ) (h1 : minQ < maxQ) (h2 : maxQ ≤ 1) :
    (initState minQ maxQ).low = minQ ∧ (initState minQ maxQ).high = maxQ ∧
      (initState minQ maxQ).currentQuality = maxQ ∧
      ∀ n, SearchInv ((searchStep enc target)^[n] (initState minQ maxQ)) := by
  refine ⟨rfl, rfl, rfl, ?_⟩
  have hstep : ∀ s, SearchInv s → SearchInv (searchStep enc target s) := by
    intro s hs
    obtain ⟨ha, hb, hc, hd⟩ := hs
    unfold searchStep SearchInv
    split
    · refine ⟨le_trans ha hb, by linarith, by linarith, hd⟩
    · refine ⟨ha, by linarith, by linarith, le_trans hc hd⟩
  intro n
  induction n with
  | zero => exact ⟨h0, le_of_lt h1, le_refl maxQ, h2⟩
  | succ n ih =>
    rw [Function.iterate_succ_apply']
    exact hstep _ ih

/-- C4 witness: the invariant after three steps of a concrete search. -/
theorem searchInv_holds_instance :
    SearchInv ((searchStep (fun _ => 512000) 100)^[3] (initState (1/10) (19/20))) :=
  (searchInv_holds (fun _ => 512000) 100 (1/10) (19/20) (by norm_num) (by norm_num)
    (by norm_num)).2.2.2 3

theorem attemptGo_terminates (enc : Canvas → ℚ → ℚ) (imgW imgH : ℤ) (maxW maxH : Option ℤ)
    (target : ℚ) (maxIter : ℕ) (minQ maxQ : ℚ) (allow : Bool) :
    ∀ fuel ratio, ratio ≤ 1/4 * (10/9)^fuel →
      (attemptCompressionGo enc imgW imgH maxW maxH target maxIter minQ maxQ allow
        (fuel + 1) ratio).isSome = true := by
  intro fuel
  induction fuel with
  | zero =>
    intro ratio h
    simp only [attemptCompressionGo]
    rw [if_neg]
    · rfl
    · rintro ⟨-, -, hgt⟩
      norm_num at h
      linarith
  | succ n ih =>
    intro ratio h
    simp only [attemptCompressionGo]
    split
    · apply ih
      have h' : ratio * (9/10) ≤ (1/4 * ((10/9:ℚ)^n * (10/9))) * (9/10) := by
        rw [← pow_succ]
        exact mul_le_mul_of_nonneg_right h (by norm_num)
      have h'' : (1/4 * ((10/9:ℚ)^n * (10/9))) * (9/10) = 1/4 * (10/9)^n := by ring
      linarith
    · rfl

theorem ratiosUsed_length_le (enc : Canvas → ℚ → ℚ) (imgW imgH : ℤ) (maxW maxH : Option ℤ)
    (target : ℚ) (maxIter : ℕ) (minQ maxQ : ℚ) (allow : Bool) :
    ∀ fuel ratio,
      (ratiosUsed enc imgW imgH maxW maxH target maxIter minQ maxQ allow fuel ratio).length
        ≤ fuel := by
  intro fuel
  induction fuel with
  | zero => intro ratio; simp [ratiosUsed]
  | succ n ih =>
    intro ratio
    simp only [ratiosUsed]
    split
    · simpa using ih (ratio * (9/10))
    · simp

theorem ratiosUsed_cons_head (enc : Canvas → ℚ → ℚ) (imgW imgH : ℤ) (maxW maxH : Option ℤ)
    (target : ℚ) (maxIter : ℕ) (minQ maxQ : ℚ) (allow : Bool) (fuel : ℕ) (ratio : ℚ) :
    (ratiosUsed enc imgW imgH maxW maxH target maxIter minQ maxQ allow (fuel + 1)
      ratio).head? = some ratio := by
  simp only [ratiosUsed]
  split <;> rfl

theorem ratiosUsed_chain (enc : Canvas → ℚ → ℚ) (imgW imgH : ℤ) (maxW maxH : Option ℤ)
    (target : ℚ) (maxIter : ℕ) (minQ maxQ : ℚ) (allow : Bool) :
    ∀ fuel ratio, 0 ≤ ratio →
      List.Chain' (fun a b => b ≤ a)
        (ratiosUsed enc imgW imgH maxW maxH target maxIter minQ maxQ allow fuel ratio) := by
  intro fuel
  induction fuel with
  | zero => intro ratio _; simp [ratiosUsed]
  | succ n ih =>
    intro ratio h
    simp only [ratiosUsed]
    split
    · rw [List.chain'_cons']
      refine ⟨?_, ih (ratio * (9/10)) (mul_nonneg h (by norm_num))⟩
      intro y hy
      cases n with
      | zero => simp [ratiosUsed] at hy
      | succ m =>
        rw [ratiosUsed_cons_head] at hy
        simp only [Option.mem_def, Option.some.injEq] at hy
        subst hy
        exact mul_le_of_le_one_right h (by norm_num)
    · simp

theorem ratiosUsed_above_step_floor (enc : Canvas → ℚ → ℚ) (imgW imgH : ℤ)
    (maxW maxH : Option ℤ) (target : ℚ) (maxIter : ℕ) (minQ maxQ : ℚ) (allow : Bool) :
    ∀ fuel ratio, ∀ r ∈ ratiosUsed enc imgW imgH maxW maxH target maxIter minQ maxQ allow
      fuel ratio, r = ratio ∨ (9:ℚ)/40 < r := by
  intro fuel
  induction fuel with
  | zero => intro ratio r hr; simp [ratiosUsed] at hr
  | succ n ih =>
    intro ratio r hr
    simp only [ratiosUsed] at hr
    revert hr
    split
    · rename_i hc
      intro hr
      rcases List.mem_cons.mp hr with h | h
      · exact Or.inl h
      · right
        rcases ih (ratio * (9/10)) r h with h' | h'
        · rw [h']
          have h14 : (1:ℚ)/4 < ratio := hc.2.2
          nlinarith
        · exact h'
    · intro hr
      simp only [List.mem_singleton] at hr
      exact Or.inl hr

/-- C3 (amended): across the downscale retry loop of one request the sequence
of downscaleRatio values used for rendering is non-increasing; every value
used stays strictly above scaleFloor·scaleStep = 0.25·0.9 = 9/40 (one attempt
may run at a ratio one multiplicative step below the 0.25 floor, so the floor
itself does not bound the used values — see the counterexample); the number
of full attempts from the starting ratio 1 is at most
15 = ⌈log(0.25)/log(0.9)⌉ + 1, and the whole call terminates: a retry budget
of 15 always suffices. -/
theorem downscaleLoop_terminates (enc : Canvas → ℚ → ℚ) (imgW imgH : ℤ)
    (maxW maxH : Option ℤ) (target : ℚ) (maxIter : ℕ) (minQ maxQ : ℚ) (allow : Bool) :
    (attemptCompressionGo enc imgW imgH maxW maxH target maxIter minQ maxQ allow
        15 1).isSome = true ∧
      List.Chain' (fun a b => b ≤ a)
        (ratiosUsed enc imgW imgH maxW maxH target maxIter minQ maxQ allow 15 1) ∧
      (∀ r ∈ ratiosUsed enc imgW imgH maxW maxH target maxIter minQ maxQ allow 15 1,
        (9:ℚ)/40 < r) ∧
      (ratiosUsed enc imgW imgH maxW maxH target maxIter minQ maxQ allow 15 1).length
        ≤ 15 := by
  refine ⟨attemptGo_terminates enc imgW imgH maxW maxH target maxIter minQ maxQ allow 14 1
      (by norm_num),
    ratiosUsed_chain enc imgW imgH maxW maxH target maxIter minQ maxQ allow 15 1
      (by norm_num),
    ?_,
    ratiosUsed_length_le enc imgW imgH maxW maxH target maxIter minQ maxQ allow 15 1⟩
  intro r hr
  rcases ratiosUsed_above_step_floor enc imgW imgH maxW maxH target maxIter minQ maxQ allow
    15 1 r hr with h | h
  · rw [h]; norm_num
  · exact h

/-- C3 counterexample: with an encoder pinned at 1000000 KB, target 1 KB and
maxIterations 1, the retry loop of the source renders 15 full attempts — one
more than ⌈log(0.25)/log(0.9)⌉ = 14 — and its last attempt runs at ratio
(9/10)^14 ≈ 0.2288, strictly below the 0.25 scale floor. -/
theorem downscaleLoop_floor_violated :
    ((9:ℚ)/10)^14 ∈ ratiosUsed (fun _ _ => 1024000000) 100 100 none none 1 1
        (1/10) (19/20) true 15 1 ∧
      ((9:ℚ)/10)^14 < 1/4 ∧
      (ratiosUsed (fun _ _ => 1024000000) 100 100 none none 1 1 (1/10) (19/20)
        true 15 1).length = 15 := by
  norm_num [ratiosUsed, binarySearch, binarySearchGo, searchStep, encodeBlob, initState,
    jsAbs]

theorem searchGo_allExceed (enc : ℚ → ℚ) (target minQ maxQ : ℚ)
    (hacc : ∀ q, minQ < q → q ≤ maxQ → target < enc q / 1024) :
    ∀ fuel maxIter s, s.low = minQ → minQ < s.currentQuality → s.currentQuality ≤ maxQ →
      s.bestBlob = none →
      binarySearchGo enc target maxIter fuel s
          = encodeBlob enc (binarySearchGo enc target maxIter fuel s).quality ∧
        (binarySearchGo enc target maxIter fuel s).quality
          ∈ searchTrace enc target maxIter fuel s ∧
        (∀ q ∈ searchTrace enc target maxIter fuel s,
          (binarySearchGo enc target maxIter fuel s).quality ≤ q) ∧
        minQ < (binarySearchGo enc target maxIter fuel s).quality ∧
        s.currentQuality ∈ searchTrace enc target maxIter fuel s := by
  intro fuel
  induction fuel with
  | zero =>
    intro maxIter s hlow hcq hmax hbest
    have hsz : ¬ enc s.currentQuality / 1024 ≤ target :=
      not_le.mpr (hacc s.currentQuality hcq hmax)
    simp only [binarySearchGo, searchTrace, encodeBlob, if_neg hsz, hbest,
      Option.getD_none]
    exact ⟨trivial, List.mem_singleton_self _, by simp, hcq, List.mem_singleton_self _⟩
  | succ n ih =>
    intro maxIter s hlow hcq hmax hbest
    have hsz : ¬ enc s.currentQuality / 1024 ≤ target :=
      not_le.mpr (hacc s.currentQuality hcq hmax)
    have hstep_eq : searchStep enc target s
        = ⟨s.low, s.currentQuality, (s.low + s.currentQuality) / 2, s.iteration + 1,
            s.bestBlob⟩ := by
      unfold searchStep
      rw [if_neg hsz]
    by_cases hstop :
      s.iteration + 1 ≥ maxIter ∨ jsAbs (enc s.currentQuality / 1024 - target) ≤ 5
    · simp only [binarySearchGo, searchTrace, encodeBlob, if_neg hsz, if_pos hstop, hbest,
        Option.getD_none]
      exact ⟨trivial, List.mem_singleton_self _, by simp, hcq, List.mem_singleton_self _⟩
    · have hmid_gt : minQ < (s.low + s.currentQuality) / 2 := by
        rw [hlow]; linarith
      have hmid_le : (s.low + s.currentQuality) / 2 ≤ maxQ := by
        rw [hlow]; linarith
      obtain ⟨ih1, ih2, ih3, ih4, ih5⟩ := ih maxIter (searchStep enc target s)
        (by rw [hstep_eq, hlow]) (by rw [hstep_eq]; exact hmid_gt)
        (by rw [hstep_eq]; exact hmid_le) (by rw [hstep_eq]; exact hbest)
      simp only [binarySearchGo, searchTrace, encodeBlob, if_neg hsz, if_neg hstop]
      refine ⟨ih1, List.mem_cons_of_mem _ ih2, ?_, ih4, List.mem_cons_self _ _⟩
      intro q hq
      rcases List.mem_cons.mp hq with h | h
      · have hle_mid := ih3 _ ih5
        have hcqv : (searchStep enc target s).currentQuality
            = (s.low + s.currentQuality) / 2 := by rw [hstep_eq]
        rw [hcqv, hlow] at hle_mid
        rw [h]
        linarith
      · exact ih3 q h

/-- C6: for every quality search in which every encoded attempt exceeds the
target (the encoder stays above the target at every quality in
(minQuality, maxQuality], so bestBlob is never set), the returned blob is the
one encoded at the smallest quality among all qualities tried, and that
quality is strictly greater than minQuality. -/
theorem allExceed_returns_smallest_tried (enc : ℚ → ℚ) (target minQ maxQ : ℚ) (maxIter : ℕ)
    (hlt : minQ < maxQ)
    (hacc : ∀ q, minQ < q → q ≤ maxQ → target < enc q / 1024) :
    (binarySearch enc target maxIter minQ maxQ).quality
        ∈ triedQualities enc target maxIter minQ maxQ ∧
      (∀ q ∈ triedQualities enc target maxIter minQ maxQ,
        (binarySearch enc target maxIter minQ maxQ).quality ≤ q) ∧
      minQ < (binarySearch enc target maxIter minQ maxQ).quality ∧
      binarySearch enc target maxIter minQ maxQ
        = encodeBlob enc (binarySearch enc target maxIter minQ maxQ).quality := by
  unfold binarySearch triedQualities
  obtain ⟨h1, h2, h3, h4, h5⟩ := searchGo_allExceed enc target minQ maxQ hacc maxIter maxIter
    (initState minQ maxQ) rfl hlt (le_refl maxQ) rfl
  exact ⟨h2, h3, h4, h1⟩

/-- C6 witness: a concrete all-over-target search returns a quality strictly
above the 0.1 floor. -/
theorem allExceed_returns_smallest_tried_instance :
    (1:ℚ)/10 < (binarySearch (fun _ => 10240000) 10 2 (1/10) (19/20)).quality :=
  (allExceed_returns_smallest_tried (fun _ => 10240000) 10 (1/10) (19/20) 2
    (by norm_num) (fun q hq hq' => by norm_num)).2.2.1

/-- C5 (amended): with allowScaleDown = false the loop performs exactly one
attempt — a single render at the original resolution (starting ratio 1) — and
returns the quality-search blob for that surface, whatever the budget; when
the encoder exceeds target + tolerance at every quality down to the floor,
that blob is the one encoded at the smallest quality tried, which is strictly
greater than minQuality (the search never encodes at exactly minQuality, so
the original claim's "the blob encoded at quality minQuality" fails — see the
counterexample). -/
theorem noScaleDown_single_attempt (enc : Canvas → ℚ → ℚ) (imgW imgH : ℤ)
    (maxW maxH : Option ℤ) (target minQ maxQ : ℚ) (maxIter fuel : ℕ)
    (hlt : minQ < maxQ)
    (hacc : ∀ q, minQ < q → q ≤ maxQ →
      target + 5 < enc (drawImageToCanvas imgW imgH maxW maxH 1) q / 1024) :
    attemptCompressionGo enc imgW imgH maxW maxH target maxIter minQ maxQ false
        (fuel + 1) 1
        = some (binarySearch (enc (drawImageToCanvas imgW imgH maxW maxH 1)) target
            maxIter minQ maxQ) ∧
      minQ < (binarySearch (enc (drawImageToCanvas imgW imgH maxW maxH 1)) target
          maxIter minQ maxQ).quality ∧
      (binarySearch (enc (drawImageToCanvas imgW imgH maxW maxH 1)) target
          maxIter minQ maxQ).quality
        ∈ triedQualities (enc (drawImageToCanvas imgW imgH maxW maxH 1)) target
            maxIter minQ maxQ ∧
      ∀ q ∈ triedQualities (enc (drawImageToCanvas imgW imgH maxW maxH 1)) target
          maxIter minQ maxQ,
        (binarySearch (enc (drawImageToCanvas imgW imgH maxW maxH 1)) target
          maxIter minQ maxQ).quality ≤ q := by
  have hacc' : ∀ q, minQ < q → q ≤ maxQ →
      target < enc (drawImageToCanvas imgW imgH maxW maxH 1) q / 1024 :=
    fun q h h' => lt_trans (by linarith) (hacc q h h')
  have hmain := searchGo_allExceed (enc (drawImageToCanvas imgW imgH maxW maxH 1)) target
    minQ maxQ hacc' maxIter maxIter (initState minQ maxQ) rfl hlt (le_refl maxQ) rfl
  refine ⟨?_, hmain.2.2.2.1, hmain.2.1, hmain.2.2.1⟩
  simp only [attemptCompressionGo]
  rw [if_neg]
  rintro ⟨-, hfalse, -⟩
  exact Bool.false_ne_true hfalse

/-- C5 witness: the single-attempt equality at a concrete over-target
encoder. -/
theorem noScaleDown_single_attempt_instance :
    attemptCompressionGo (fun _ _ => 10240000) 100 100 none none 10 2 (1/10) (19/20)
        false 3 1
      = some (binarySearch ((fun (_ : Canvas) (_ : ℚ) => (10240000:ℚ))
          (drawImageToCanvas 100 100 none none 1)) 10 2 (1/10) (19/20)) :=
  (noScaleDown_single_attempt (fun _ _ => 10240000) 100 100 none none 10 (1/10) (19/20)
    2 2 (by norm_num) (fun q hq hq' => by norm_num)).1

/-- C5 counterexample: at a concrete encoder whose size floor exceeds
target + tolerance, the no-scale-down call returns the blob encoded at
quality 21/40 = 0.525 — the smallest quality the two-iteration search tried —
and not a blob encoded at minQuality = 0.1. -/
theorem noScaleDown_not_minQuality :
    (attemptCompressionGo (fun _ _ => 10240000) 100 100 none none 10 2 (1/10) (19/20)
        false 1 1).map Blob.quality = some (21/40) ∧ ((21:ℚ)/40) ≠ 1/10 := by
  constructor
  · norm_num [attemptCompressionGo, binarySearch, binarySearchGo, searchStep, encodeBlob,
      initState, jsAbs]
  · norm_num

theorem drawImageToCanvas_eq_stages (imgW imgH : ℤ) (maxW maxH : Option ℤ) (ratio : ℚ) :
    drawImageToCanvas imgW imgH maxW maxH ratio
      = Canvas.mk (clampHeightSpec maxH (clampWidthSpec maxW (applyRatioSpec ratio
            (imgW, imgH)))).1
          (clampHeightSpec maxH (clampWidthSpec maxW (applyRatioSpec ratio (imgW, imgH)))).2 :=
  rfl

theorem jsRound_le (x : ℚ) (n : ℤ) (h : x ≤ n) : jsRound x ≤ n := by
  unfold jsRound
  have hlt : ⌊x + 1/2⌋ < n + 1 := Int.floor_lt.mpr (by push_cast; linarith)
  omega

theorem jsRound_nonneg (x : ℚ) (h : 0 ≤ x) : 0 ≤ jsRound x := by
  unfold jsRound
  exact Int.le_floor.mpr (by push_cast; linarith)

theorem applyRatioSpec_nonneg (ratio : ℚ) (p : ℤ × ℤ) (h1 : 0 ≤ p.1) (h2 : 0 ≤ p.2)
    (hr : 0 ≤ ratio) :
    0 ≤ (applyRatioSpec ratio p).1 ∧ 0 ≤ (applyRatioSpec ratio p).2 := by
  unfold applyRatioSpec
  split
  · constructor <;>
      exact jsRound_nonneg _ (mul_nonneg (by exact_mod_cast ‹_›) hr)
  · exact ⟨h1, h2⟩

theorem clampWidthSpec_width_le (p : ℤ × ℤ) (mw : ℤ) (hmw : 0 < mw) :
    (clampWidthSpec (some mw) p).1 ≤ mw := by
  simp only [clampWidthSpec]
  split
  · rfl
  · rename_i hc
    push_neg at hc
    exact le_of_not_lt (fun hgt => absurd (hc hmw.ne') (not_le.mpr hgt))

theorem clampWidthSpec_nonneg (p : ℤ × ℤ) (mw : ℤ) (hmw : 0 < mw)
    (h1 : 0 ≤ p.1) (h2 : 0 ≤ p.2) :
    0 ≤ (clampWidthSpec (some mw) p).1 ∧ 0 ≤ (clampWidthSpec (some mw) p).2 := by
  simp only [clampWidthSpec]
  split
  · rename_i hc
    refine ⟨hmw.le, jsRound_nonneg _ ?_⟩
    have hp1 : (0:ℚ) < (p.1 : ℚ) := by exact_mod_cast lt_trans hmw hc.2
    exact mul_nonneg (by exact_mod_cast h2)
      (div_nonneg (by exact_mod_cast hmw.le) hp1.le)
  · exact ⟨h1, h2⟩

theorem clampHeightSpec_width_le (p : ℤ × ℤ) (maxH : Option ℤ)
    (h1 : 0 ≤ p.1) (h2 : 0 ≤ p.2) :
    (clampHeightSpec maxH p).1 ≤ p.1 := by
  rcases maxH with _ | mh
  · exact le_refl p.1
  · simp only [clampHeightSpec]
    split
    · rename_i hc
      rcases eq_or_lt_of_le h2 with h0 | h0
      · have hz : ((mh : ℚ) / (p.2 : ℚ)) = 0 := by
          rw [← h0]
          simp
        rw [hz, mul_zero]
        have h00 : jsRound 0 ≤ 0 := jsRound_le 0 0 (le_refl 0)
        exact le_trans h00 h1
      · have hlt : (mh : ℚ) < (p.2 : ℚ) := by exact_mod_cast hc.2
        have hp2 : (0:ℚ) < (p.2 : ℚ) := by exact_mod_cast h0
        have hdiv : (mh : ℚ) / (p.2 : ℚ) ≤ 1 := by
          rw [div_le_one hp2]
          exact hlt.le
        have hx : (p.1 : ℚ) * ((mh : ℚ) / (p.2 : ℚ)) ≤ (p.1 : ℚ) :=
          mul_le_of_le_one_right (by exact_mod_cast h1) hdiv
        exact jsRound_le _ _ hx
    · exact le_refl p.1

theorem clampHeightSpec_height_le (p : ℤ × ℤ) (mh : ℤ) (hmh : 0 < mh) :
    (clampHeightSpec (some mh) p).2 ≤ mh := by
  simp only [clampHeightSpec]
  split
  · rfl
  · rename_i hc
    push_neg at hc
    exact le_of_not_lt (fun hgt => absurd (hc hmh.ne') (not_le.mpr hgt))

/-- C8: the render geometry applies the downscale ratio to the source
dimensions first and the maxWidth/maxHeight clamps afterwards (the
dimension computation is exactly the composition of the three
specification stages in that order); in particular, with a positive
maxWidth smaller than the source width, no maxHeight cap and
downscaleRatio = 1, the rendered width equals maxWidth and the rendered
height is the source height scaled by maxWidth/width and rounded,
preserving the aspect ratio. -/
theorem renderGeometry_ratio_then_clamp (imgW imgH : ℤ) (maxH : Option ℤ) (ratio : ℚ)
    (mw : ℤ) (hmw : 0 < mw) (hgt : mw < imgW) (hr : ratio = 1) (hH : maxH = none) :
    (∀ (iw ih : ℤ) (mW mH : Option ℤ) (r : ℚ),
        drawImageToCanvas iw ih mW mH r
          = Canvas.mk (clampHeightSpec mH (clampWidthSpec mW (applyRatioSpec r (iw, ih)))).1
              (clampHeightSpec mH (clampWidthSpec mW (applyRatioSpec r (iw, ih)))).2) ∧
      (drawImageToCanvas imgW imgH (some mw) maxH ratio).width = mw ∧
      (drawImageToCanvas imgW imgH (some mw) maxH ratio).height
        = jsRound ((imgH : ℚ) * ((mw : ℚ) / (imgW : ℚ))) := by
  subst hr hH
  refine ⟨fun iw ih mW mH r => drawImageToCanvas_eq_stages iw ih mW mH r, ?_, ?_⟩ <;>
    simp [drawImageToCanvas, hmw.ne', hgt]

/-- C8 witness: a 4000-wide source clamped to maxWidth 1920 at ratio 1. -/
theorem renderGeometry_ratio_then_clamp_instance :
    (drawImageToCanvas 4000 3000 (some 1920) none 1).width = 1920 :=
  (renderGeometry_ratio_then_clamp 4000 3000 none 1 1920 (by norm_num) (by norm_num)
    rfl rfl).2.1

/-- C10: for every render whose maxWidth (respectively maxHeight) is a
positive cap and whose downscale ratio lies in (0, 1], the produced canvas
satisfies width ≤ maxWidth and height ≤ maxHeight — the clamping steps never
produce a dimension exceeding a specified cap, including after rounding. -/
theorem renderGeometry_caps_respected (imgW imgH : ℤ) (maxW maxH : Option ℤ) (ratio : ℚ)
    (hiW : 0 ≤ imgW) (hiH : 0 ≤ imgH) (hr0 : 0 < ratio) (_hr1 : ratio ≤ 1) :
    (∀ mw, maxW = some mw → 0 < mw →
        (drawImageToCanvas imgW imgH maxW maxH ratio).width ≤ mw) ∧
      (∀ mh, maxH = some mh → 0 < mh →
        (drawImageToCanvas imgW imgH maxW maxH ratio).height ≤ mh) := by
  constructor
  · intro mw hW hmw
    subst hW
    rw [drawImageToCanvas_eq_stages]
    obtain ⟨hp1, hp2⟩ := applyRatioSpec_nonneg ratio (imgW, imgH) hiW hiH hr0.le
    obtain ⟨hq1, hq2⟩ := clampWidthSpec_nonneg (applyRatioSpec ratio (imgW, imgH)) mw hmw
      hp1 hp2
    exact le_trans
      (clampHeightSpec_width_le (clampWidthSpec (some mw) (applyRatioSpec ratio
        (imgW, imgH))) maxH hq1 hq2)
      (clampWidthSpec_width_le (applyRatioSpec ratio (imgW, imgH)) mw hmw)
  · intro mh hH hmh
    subst hH
    rw [drawImageToCanvas_eq_stages]
    exact clampHeightSpec_height_le _ mh hmh

/-- C10 witness: concrete caps hold for a 4000 by 3000 source at ratio 1/2. -/
theorem renderGeometry_caps_respected_instance :
    (drawImageToCanvas 4000 3000 (some 1920) (some 1000) (1/2)).width ≤ 1920 :=
  (renderGeometry_caps_respected 4000 3000 (some 1920) (some 1000) (1/2) (by norm_num)
    (by norm_num) (by norm_num) (by norm_num)).1 1920 rfl (by norm_num)

end ImageCompressor
